import Mathlib

/-!
Verification of `rhel8-kickstart-setup.py`, a one-shot tool that restructures
a mounted RHEL-8 installation ISO into a split BaseOS/AppStream kickstart
tree.  The Python source is shallowly embedded: the command runner and the
mount scope become trace-producing functions, the `RawConfigParser`-based
tree-info editors become functions over an association-list configuration
type, and the copy phase becomes a function over an inductive file tree.
-/

namespace Kickstart

/-- Observed result of one external process execution: the return code and
the merged stdout/stderr output captured by `subprocess.Popen(...,
stdout=PIPE, stderr=STDOUT)`. -/
structure Proc where
  returncode : Int
  output : String
deriving DecidableEq

/-- Result of `run(cmd, can_fail)`: either a boolean return to the caller, or
an abort of the whole program (messages printed to stderr, `sys.exit` code). -/
inductive RunRes where
  | ret (b : Bool)
  | abort (stderrLines : List String) (exitCode : Nat)
deriving DecidableEq

/-- The first stderr line printed by `run` on a fatal failure
(`"Executed command '%s' failed with following output:" % " ".join(cmd)`). -/
def runCmdLineMsg (cmd : List String) : String :=
  "Executed command \x27" ++ String.intercalate " " cmd ++ "\x27 failed with following output:"

/-- Embedding of `run` (src lines 20-33): zero return code yields `True`;
non-zero with `can_fail` yields `False`; otherwise the command line and the
captured output go to stderr and the program exits with status 1. -/
def run (cmd : List String) (p : Proc) (canFail : Bool) : RunRes :=
  if p.returncode = 0 then .ret true
  else if canFail then .ret false
  else .abort [runCmdLineMsg cmd, p.output] 1

/-- Events visible in a program trace: temporary-directory creation, an
external command with its success flag, a sleep of `n` seconds, an `os.rmdir`
call, the body of the `mount_iso` scope running, and a tree-info edit. -/
inductive MEv where
  | mkdtemp
  | cmd (name : String) (ok : Bool)
  | sleepFor (n : Nat)
  | rmdirCall
  | bodyRun
  | tweakCall (variant : String)
deriving DecidableEq

/-- Final outcome of (a part of) the program. -/
inductive MOut where
  | finished
  | exited (code : Nat)
  | raised (msg : String)
deriving DecidableEq

/-- The `for timeout in range(5)` retry loop of `mount_iso` (src lines 47-52),
parameterised by which attempts succeed (`u t` is the result of the tolerant
`run(["umount", ...])` on the attempt with loop counter `t`).  A successful
attempt breaks out of the loop; a failed attempt is followed by
`time.sleep(timeout)` and the next iteration. -/
def umountLoop (u : Nat → Bool) : List Nat → List MEv
  | [] => []
  | t :: ts =>
    if u t then [.cmd "umount" true]
    else .cmd "umount" false :: .sleepFor t :: umountLoop u ts

/-- The full event trace of the unmount retry loop over `range(5)`. -/
def umountEvents (u : Nat → Bool) : List MEv :=
  umountLoop u [0, 1, 2, 3, 4]

/-- Embedding of the `mount_iso` context manager (src lines 36-53).
`mountOk` is the result of the fatal `run(["mount", ...])`; `u` gives the
results of the tolerant umount attempts; `rmdirOk` tells whether the final
`os.rmdir` succeeds; `bodyErr` is `some msg` when the scoped body raises.
The mount happens before the `try`, so a mount failure exits with status 1
without running any cleanup; the `finally` block runs the retry loop and the
`os.rmdir` on every exit of the body, and an `os.rmdir` error propagates
(in Python it replaces a pending body exception). -/
def mountScope (mountOk : Bool) (u : Nat → Bool) (rmdirOk : Bool)
    (bodyErr : Option String) : List MEv × MOut :=
  if mountOk then
    ([.mkdtemp, .cmd "mount" true, .bodyRun] ++ umountEvents u ++ [.rmdirCall],
     if rmdirOk then
       match bodyErr with
       | some e => .raised e
       | none => .finished
     else .raised "rmdir failed")
  else
    ([.mkdtemp, .cmd "mount" false], .exited 1)

/-- Recognises an unmount attempt event. -/
def isUmountAttempt : MEv → Bool
  | .cmd n _ => n = "umount"
  | _ => false

/-- Number of unmount attempts recorded in a trace. -/
def attemptCount (l : List MEv) : Nat :=
  (l.filter isUmountAttempt).length

/-- Recognises a sleep event. -/
def isSleepEv : MEv → Bool
  | .sleepFor _ => true
  | _ => false

/-- Total seconds slept in a trace. -/
def totalSleep : List MEv → Nat
  | [] => 0
  | .sleepFor n :: rest => n + totalSleep rest
  | _ :: rest => totalSleep rest

/-- The property that every sleep event in a trace is followed, later in the
trace, by some unmount attempt (i.e. sleeps occur only between attempts,
never after the last one). -/
def sleepsOnlyBetweenAttempts (l : List MEv) : Prop :=
  ∀ i : Fin l.length, isSleepEv (l.get i) →
    ∃ j : Fin l.length, (i : Nat) < (j : Nat) ∧ isUmountAttempt (l.get j)

/-- Embedding of `main` (src lines 126-172) at the trace level.  `args` are
the positional arguments after option parsing; `destExists` is the
`os.path.exists(destdir)` test.  `optparse`'s `parser.error` exits with
status 2 before any filesystem work.  The copy phase inside the mount scope
is abstracted by `bodyErr` (its file-level content is modelled separately by
`mainCopyPhase`); the two tree-info edits and the final `chmod` run only
after the scope finished normally. -/
def mainModel (args : List String) (destExists mountOk : Bool) (u : Nat → Bool)
    (rmdirOk : Bool) (bodyErr : Option String) (chmodOk : Bool) :
    List MEv × MOut :=
  if args.length ≠ 2 then ([], .exited 2)
  else if destExists then ([], .exited 2)
  else
    let s := mountScope mountOk u rmdirOk bodyErr
    match s.2 with
    | .finished =>
        if chmodOk then
          (s.1 ++ [.tweakCall "BaseOS", .tweakCall "AppStream", .cmd "chmod" true],
           .finished)
        else
          (s.1 ++ [.tweakCall "BaseOS", .tweakCall "AppStream", .cmd "chmod" false],
           .exited 1)
    | out => (s.1, out)

/-- The unmount retry loop makes at most 5 attempts. -/
theorem attemptCount_umountEvents_le (u : Nat → Bool) :
    attemptCount (umountEvents u) ≤ 5 := by
  cases h0 : u 0 <;> cases h1 : u 1 <;> cases h2 : u 2 <;> cases h3 : u 3 <;>
    cases h4 : u 4 <;>
    simp [umountEvents, umountLoop, h0, h1, h2, h3, h4, attemptCount,
      isUmountAttempt, List.filter]

/-- The unmount retry loop sleeps at most 10 seconds in total. -/
theorem totalSleep_umountEvents_le (u : Nat → Bool) :
    totalSleep (umountEvents u) ≤ 10 := by
  cases h0 : u 0 <;> cases h1 : u 1 <;> cases h2 : u 2 <;> cases h3 : u 3 <;>
    cases h4 : u 4 <;>
    simp [umountEvents, umountLoop, h0, h1, h2, h3, h4, totalSleep]

/-- Claim C6: the command runner returns `True` on a zero exit code in either
mode; on a non-zero exit code in tolerant mode it returns `False` with no
other side effects; on a non-zero exit code in non-tolerant mode it prints
the command line and the captured output to stderr and terminates the whole
program with exit status 1, never returning control to its caller. -/
theorem run_contract :
    (∀ (cmd : List String) (p : Proc), p.returncode ≠ 0 →
        run cmd p false = .abort [runCmdLineMsg cmd, p.output] 1 ∧
        ∀ b, run cmd p false ≠ .ret b) ∧
    (∀ (cmd : List String) (p : Proc), p.returncode ≠ 0 →
        run cmd p true = .ret false) ∧
    (∀ (cmd : List String) (p : Proc) (canFail : Bool), p.returncode = 0 →
        run cmd p canFail = .ret true) := by
  refine ⟨?_, ?_, ?_⟩ <;> intros <;> simp_all [run]

/-- Witness for `run_contract` at concrete processes. -/
theorem run_contract_witness :
    run ["mount"] ⟨1, "boom"⟩ false = .abort [runCmdLineMsg ["mount"], "boom"] 1 ∧
    run ["umount"] ⟨32, "busy"⟩ true = .ret false ∧
    run ["chmod"] ⟨0, ""⟩ false = .ret true :=
  ⟨(run_contract.1 ["mount"] ⟨1, "boom"⟩ (by decide)).1,
   run_contract.2.1 ["umount"] ⟨32, "busy"⟩ (by decide),
   run_contract.2.2 ["chmod"] ⟨0, ""⟩ false (by decide)⟩

/-- Claim C7: on every exit of the mount scope (normal or via a body
exception) the teardown runs, making at most 5 unmount attempts and then a
directory removal; when the first 4 attempts fail and the 5th succeeds, the
teardown succeeds and no sleep follows the final (successful) attempt; when
all 5 attempts fail, the directory removal is still attempted and an error
it raises propagates. -/
theorem mount_scope_teardown :
    (∀ (u : Nat → Bool) (r : Bool) (bodyErr : Option String),
        (mountScope true u r bodyErr).1 =
          [.mkdtemp, .cmd "mount" true, .bodyRun] ++ umountEvents u ++ [.rmdirCall] ∧
        attemptCount (umountEvents u) ≤ 5 ∧
        MEv.rmdirCall ∈ (mountScope true u r bodyErr).1) ∧
    (umountEvents (fun n => n == 4) =
        [.cmd "umount" false, .sleepFor 0, .cmd "umount" false, .sleepFor 1,
         .cmd "umount" false, .sleepFor 2, .cmd "umount" false, .sleepFor 3,
         .cmd "umount" true] ∧
      (mountScope true (fun n => n == 4) true none).2 = .finished) ∧
    (∀ bodyErr : Option String,
        (mountScope true (fun _ => false) false bodyErr).2 = .raised "rmdir failed" ∧
        MEv.rmdirCall ∈ (mountScope true (fun _ => false) false bodyErr).1) := by
  refine ⟨fun u r bodyErr => ⟨rfl, attemptCount_umountEvents_le u, ?_⟩,
    ⟨by decide, by decide⟩, fun bodyErr => ⟨rfl, ?_⟩⟩ <;>
    simp [mountScope]

/-- Claim C8 (as stated) is false: in the all-failures teardown a 4-second
sleep occurs after the final unmount attempt, before the directory removal,
so sleeps do not occur only between attempts. -/
theorem umount_sleep_after_last_attempt :
    ¬ sleepsOnlyBetweenAttempts ((mountScope true (fun _ => false) true none).1) := by
  unfold sleepsOnlyBetweenAttempts
  decide

/-- Claim C8 (amended): a sleep follows each failed unmount attempt, with
durations 0, 1, 2, 3, 4 seconds, so the sleeps between consecutive attempts
are 0, 1, 2, 3 seconds and, when all five attempts fail, a final 4-second
sleep precedes the directory removal; the worst-case total wait is 10
seconds. -/
theorem umount_backoff_profile :
    (∀ u : Nat → Bool, totalSleep (umountEvents u) ≤ 10) ∧
    umountEvents (fun _ => false) =
      [.cmd "umount" false, .sleepFor 0, .cmd "umount" false, .sleepFor 1,
       .cmd "umount" false, .sleepFor 2, .cmd "umount" false, .sleepFor 3,
       .cmd "umount" false, .sleepFor 4] ∧
    totalSleep (umountEvents (fun _ => false)) = 10 ∧
    (mountScope true (fun _ => false) true none).1 =
      [.mkdtemp, .cmd "mount" true, .bodyRun] ++
        umountEvents (fun _ => false) ++ [.rmdirCall] :=
  ⟨totalSleep_umountEvents_le, by decide, by decide, rfl⟩

/-- Claim C4: with a wrong argument count, and likewise with an existing
destination, the program exits with status 2 (non-zero) with an empty trace:
no mount, copy or edit happens and the filesystem is untouched. -/
theorem validation_before_side_effects :
    (∀ (args : List String) (destExists mountOk : Bool) (u : Nat → Bool)
        (rmdirOk : Bool) (bodyErr : Option String) (chmodOk : Bool),
        args.length ≠ 2 →
        mainModel args destExists mountOk u rmdirOk bodyErr chmodOk =
          ([], .exited 2)) ∧
    (∀ (iso dest : String) (mountOk : Bool) (u : Nat → Bool) (rmdirOk : Bool)
        (bodyErr : Option String) (chmodOk : Bool),
        mainModel [iso, dest] true mountOk u rmdirOk bodyErr chmodOk =
          ([], .exited 2)) ∧
    (2 : Nat) ≠ 0 := by
  refine ⟨fun args d m u r b c h => by simp [mainModel, h],
    fun iso dest m u r b c => by simp [mainModel], by decide⟩

/-- Witness for `validation_before_side_effects` at concrete inputs. -/
theorem validation_before_side_effects_witness :
    mainModel ["img.iso"] false true (fun _ => true) true none true =
      ([], .exited 2) ∧
    mainModel ["img.iso", "dest"] true true (fun _ => true) true none true =
      ([], .exited 2) :=
  ⟨validation_before_side_effects.1 ["img.iso"] false true (fun _ => true) true
      none true (by decide),
   validation_before_side_effects.2.1 "img.iso" "dest" true (fun _ => true) true
      none true⟩

/-- Claim C10: when the mount command itself fails, the program exits with
status 1; the temporary directory was created but no removal (and no scoped
body, hence no copy) ever runs, so the directory is left on disk. -/
theorem mount_failure_leaves_tempdir :
    ∀ (iso dest : String) (u : Nat → Bool) (rmdirOk : Bool)
      (bodyErr : Option String) (chmodOk : Bool),
      mainModel [iso, dest] false false u rmdirOk bodyErr chmodOk =
        ([.mkdtemp, .cmd "mount" false], .exited 1) ∧
      MEv.mkdtemp ∈ (mainModel [iso, dest] false false u rmdirOk bodyErr chmodOk).1 ∧
      MEv.rmdirCall ∉ (mainModel [iso, dest] false false u rmdirOk bodyErr chmodOk).1 ∧
      MEv.bodyRun ∉ (mainModel [iso, dest] false false u rmdirOk bodyErr chmodOk).1 := by
  intro iso dest u r b c
  refine ⟨rfl, ?_, ?_, ?_⟩ <;> simp [mainModel, mountScope]

/-- First-match association-list lookup (used for directory listings,
configuration sections and option dictionaries). -/
def assoc {α : Type} : List (String × α) → String → Option α
  | [], _ => none
  | (k, v) :: rest, key => if k = key then some v else assoc rest key

/-- A tree-info document as held by `RawConfigParser`: ordered named
sections, each an ordered list of option/value pairs. -/
abbrev Config := List (String × List (String × String))

/-- The lookup failures `RawConfigParser` can raise from the operations the
editors use: `NoSectionError` and `NoOptionError`. -/
inductive CfgErr where
  | noSection (s : String)
  | noOption (s k : String)
deriving DecidableEq

/-- The parser's section lookup. -/
def getSection (cfg : Config) (s : String) : Option (List (String × String)) :=
  assoc cfg s

/-- `section in parser` test used by `RawConfigParser.set`. -/
def hasSection (cfg : Config) (s : String) : Bool :=
  (getSection cfg s).isSome

/-- `parser.sections()`. -/
def sections (cfg : Config) : List String :=
  cfg.map (·.1)

/-- Option lookup inside one section. -/
def getKey : List (String × String) → String → Option String :=
  assoc

/-- Dict-style option update: replace the value in place when the option
exists, append it otherwise. -/
def setKey : List (String × String) → String → String → List (String × String)
  | [], k, v => [(k, v)]
  | (k', v') :: rest, k, v =>
    if k' = k then (k, v) :: rest else (k', v') :: setKey rest k v

/-- Apply `f` to the options of the section named `s`. -/
def mapSection : Config → String →
    (List (String × String) → List (String × String)) → Config
  | [], _, _ => []
  | (n, opts) :: rest, s, f =>
    (n, if n = s then f opts else opts) :: mapSection rest s f

/-- `ti.set(section, option, value)`: raises `NoSectionError` when the
section does not exist, otherwise updates the option in place. -/
def setOpt (cfg : Config) (s k v : String) : Except CfgErr Config :=
  if hasSection cfg s then .ok (mapSection cfg s (fun opts => setKey opts k v))
  else .error (.noSection s)

/-- `ti.get(section, option)`: raises `NoSectionError` or `NoOptionError`. -/
def getOpt (cfg : Config) (s k : String) : Except CfgErr String :=
  match getSection cfg s with
  | none => .error (.noSection s)
  | some opts =>
    match getKey opts k with
    | none => .error (.noOption s k)
    | some v => .ok v

/-- Pure observation of an option's value (for stating properties). -/
def getOptO (cfg : Config) (s k : String) : Option String :=
  (getSection cfg s).bind (fun opts => getKey opts k)

/-- `ti.remove_section(s)`: drops the section when present and is a no-op
(no exception) when absent. -/
def removeSection : Config → String → Config
  | [], _ => []
  | sec :: rest, s =>
    if sec.1 = s then removeSection rest s else sec :: removeSection rest s

/-- Embedding of `_tweak_paths` (src lines 56-71): set the variant fields,
repository and package directory in `general`, `tree` and the
`variant-<Name>` section; with the platforms flag, copy `general.arch` into
`general.platforms` and `tree.platforms`; finally remove the `media`
section. -/
def tweakPaths (ti : Config) (variant : String) (platforms : Bool) :
    Except CfgErr Config := do
  let ti ← setOpt ti "general" "variants" variant
  let ti ← setOpt ti "general" "variant" variant
  let ti ← setOpt ti "general" "repository" "."
  let ti ← setOpt ti "general" "packagedir" "Packages"
  let ti ← setOpt ti "tree" "variants" variant
  let ti ← setOpt ti ("variant-" ++ variant) "packages" "Packages"
  let ti ← setOpt ti ("variant-" ++ variant) "repository" "."
  let ti ←
    if platforms then do
      let arch ← getOpt ti "general" "arch"
      let ti ← setOpt ti "general" "platforms" arch
      setOpt ti "tree" "platforms" arch
    else pure ti
  pure (removeSection ti "media")

/-- Embedding of `tweak_baseos_treeinfo` (src lines 74-83) at the document
level: common rewrite with variant `"BaseOS"`, platforms flag unset, then
removal of the `variant-AppStream` section. -/
def tweak_baseos_treeinfo (cfg : Config) : Except CfgErr Config := do
  let ti ← tweakPaths cfg "BaseOS" false
  pure (removeSection ti "variant-AppStream")

/-- Python's `str.startswith`: character-wise prefix test. -/
def strStartsWith (s pre : String) : Bool :=
  pre.data.isPrefixOf s.data

/-- The `sections_to_remove` list built by `tweak_appstream_treeinfo`
(src lines 92-96): the three fixed names plus every section of the document
whose name starts with `images-`. -/
def appstreamRemoveList (ti : Config) : List String :=
  ["variant-BaseOS", "checksums", "stage2"] ++
    (sections ti).filter (fun s => strStartsWith s "images-")

/-- Embedding of `tweak_appstream_treeinfo` (src lines 86-102) at the
document level: common rewrite with variant `"AppStream"`, platforms flag
set, then removal of `variant-BaseOS`, `checksums`, `stage2` and every
section whose name starts with `images-`. -/
def tweak_appstream_treeinfo (cfg : Config) : Except CfgErr Config := do
  let ti ← tweakPaths cfg "AppStream" true
  pure ((appstreamRemoveList ti).foldl removeSection ti)

/-- A flat model of the configuration files on disk, path to parsed
document. -/
abbrev Store := List (String × Config)

/-- `ti.read(file_path)`: a missing file is silently read as an empty
document. -/
def readConfig (store : Store) (path : String) : Config :=
  (assoc store path).getD []

/-- `ti.write(f)` over `open(file_path, "w")`: replace the document at
`path`, creating it when absent. -/
def writeConfig : Store → String → Config → Store
  | [], path, cfg => [(path, cfg)]
  | (p, c) :: rest, path, cfg =>
    if p = path then (path, cfg) :: rest else (p, c) :: writeConfig rest path cfg

/-- File-level `tweak_baseos_treeinfo`: read the document at `file_path`,
edit it, write the result back to the same path. -/
def tweakBaseosFile (store : Store) (path : String) : Except CfgErr Store :=
  (tweak_baseos_treeinfo (readConfig store path)).map
    (fun cfg => writeConfig store path cfg)

@[simp] theorem exbind_ok {ε α β : Type} (a : α) (f : α → Except ε β) :
    (Except.ok a >>= f : Except ε β) = f a := rfl

@[simp] theorem exbind_err {ε α β : Type} (e : ε) (f : α → Except ε β) :
    (Except.error e >>= f : Except ε β) = Except.error e := rfl

@[simp] theorem getSection_mapSection (cfg : Config) (s t : String)
    (f : List (String × String) → List (String × String)) :
    getSection (mapSection cfg s f) t =
      if t = s then (getSection cfg s).map f else getSection cfg t := by
  induction cfg with
  | nil => by_cases h : t = s <;> simp [mapSection, getSection, assoc, h]
  | cons sec rest ih =>
    obtain ⟨n, opts⟩ := sec
    by_cases hnt : n = t
    · subst hnt
      by_cases hns : n = s
      · subst hns
        simp [mapSection, getSection, assoc]
      · simp [mapSection, getSection, assoc, hns]
    · by_cases hns : n = s
      · subst hns
        simp_all [mapSection, getSection, assoc, Ne.symm hnt]
      · simp_all [mapSection, getSection, assoc]

@[simp] theorem hasSection_mapSection (cfg : Config) (s t : String)
    (f : List (String × String) → List (String × String)) :
    hasSection (mapSection cfg s f) t = hasSection cfg t := by
  by_cases h : t = s
  · subst h
    simp only [hasSection, getSection_mapSection, if_pos rfl]
    cases getSection cfg t <;> simp
  · simp [hasSection, h]

@[simp] theorem getSection_removeSection (cfg : Config) (s t : String) :
    getSection (removeSection cfg s) t =
      if t = s then none else getSection cfg t := by
  induction cfg with
  | nil => by_cases h : t = s <;> simp [removeSection, getSection, assoc, h]
  | cons sec rest ih =>
    obtain ⟨n, opts⟩ := sec
    by_cases hns : n = s
    · subst hns
      by_cases hnt : t = n
      · subst hnt
        simp [removeSection, ih]
      · simp_all [removeSection, getSection, assoc, Ne.symm hnt]
    · by_cases hnt : n = t
      · subst hnt
        simp [removeSection, getSection, assoc, hns, Ne.symm hns]
      · simp_all [removeSection, getSection, assoc]

@[simp] theorem getKey_setKey (opts : List (String × String)) (k v k2 : String) :
    getKey (setKey opts k v) k2 = if k2 = k then some v else getKey opts k2 := by
  induction opts with
  | nil =>
    by_cases h : k2 = k
    · subst h
      simp [setKey, getKey, assoc]
    · simp [setKey, getKey, assoc, h, Ne.symm h]
  | cons p rest ih =>
    obtain ⟨k', v'⟩ := p
    by_cases h1 : k' = k
    · subst h1
      by_cases h2 : k2 = k'
      · subst h2
        simp [setKey, getKey, assoc]
      · simp [setKey, getKey, assoc, h2, Ne.symm h2]
    · by_cases h2 : k' = k2
      · subst h2
        simp [setKey, getKey, assoc, h1]
      · simp_all [setKey, getKey, assoc]

@[simp] theorem sections_mapSection (cfg : Config) (s : String)
    (f : List (String × String) → List (String × String)) :
    sections (mapSection cfg s f) = sections cfg := by
  induction cfg with
  | nil => rfl
  | cons sec rest ih =>
    obtain ⟨n, opts⟩ := sec
    simp [mapSection, sections] at ih ⊢
    exact ih

theorem getSection_eq_none_iff (cfg : Config) (s : String) :
    getSection cfg s = none ↔ s ∉ sections cfg := by
  induction cfg with
  | nil => simp [getSection, assoc, sections]
  | cons sec rest ih =>
    obtain ⟨n, opts⟩ := sec
    by_cases h : n = s
    · subst h
      simp [getSection, assoc, sections]
    · simp_all [getSection, assoc, sections, Ne.symm h]

theorem getSection_foldl_removeSection (l : List String) (cfg : Config)
    (t : String) :
    getSection (l.foldl removeSection cfg) t =
      if t ∈ l then none else getSection cfg t := by
  induction l generalizing cfg with
  | nil => simp
  | cons a l' ih =>
    by_cases hl : t ∈ l' <;> by_cases ha : t = a <;>
      simp_all [List.foldl_cons, ih]

theorem getSection_appstreamRemove_mem (ti : Config) (s : String)
    (hs : s ∈ appstreamRemoveList ti) :
    getSection ((appstreamRemoveList ti).foldl removeSection ti) s = none := by
  rw [getSection_foldl_removeSection, if_pos hs]

theorem getSection_appstreamRemove_images (ti : Config) (s : String)
    (hs : strStartsWith s "images-" = true) :
    getSection ((appstreamRemoveList ti).foldl removeSection ti) s = none := by
  rw [getSection_foldl_removeSection]
  split_ifs with h
  · rfl
  · rw [getSection_eq_none_iff]
    intro hmem
    exact h (List.mem_append_right _ (List.mem_filter.mpr ⟨hmem, hs⟩))

theorem getSection_appstreamRemove_preserve (ti : Config) (t : String)
    (h1 : t ∉ (["variant-BaseOS", "checksums", "stage2"] : List String))
    (h2 : strStartsWith t "images-" = false) :
    getSection ((appstreamRemoveList ti).foldl removeSection ti) t =
      getSection ti t := by
  rw [getSection_foldl_removeSection, if_neg]
  intro hmem
  rcases List.mem_append.mp hmem with h | h
  · exact h1 h
  · have := (List.mem_filter.mp h).2
    simp [h2] at this

theorem assoc_writeConfig (store : Store) (path q : String) (cfg : Config) :
    assoc (writeConfig store path cfg) q =
      if q = path then some cfg else assoc store q := by
  induction store with
  | nil =>
    by_cases h : q = path
    · subst h
      simp [writeConfig, assoc]
    · simp [writeConfig, assoc, h, Ne.symm h]
  | cons pc rest ih =>
    obtain ⟨p, c⟩ := pc
    by_cases hp : p = path
    · subst hp
      by_cases hq : q = p
      · subst hq
        simp [writeConfig, assoc]
      · simp [writeConfig, assoc, hq, Ne.symm hq]
    · by_cases hq : p = q
      · subst hq
        simp [writeConfig, assoc, hp, Ne.symm hp]
      · simp_all [writeConfig, assoc]

theorem removeSection_of_no_section (cfg : Config) (s : String)
    (h : hasSection cfg s = false) : removeSection cfg s = cfg := by
  induction cfg with
  | nil => rfl
  | cons sec rest ih =>
    obtain ⟨n, opts⟩ := sec
    by_cases hns : n = s
    · exfalso
      simp [hasSection, getSection, assoc, hns] at h
    · simp only [removeSection, if_neg hns, List.cons.injEq, true_and]
      exact ih (by simpa [hasSection, getSection, assoc, hns] using h)

/-- Claim C2: after the BaseOS edit, the document has no `variant-AppStream`
and no `media` section; `general.variants`, `general.variant` and
`tree.variants` equal `BaseOS`; `general.repository` and
`variant-BaseOS.repository` equal `.`; `general.packagedir` and
`variant-BaseOS.packages` equal `Packages`; and the file-level editor writes
the edited document back to the same path, leaving every other path
untouched. -/
theorem treeinfo_baseos_rewrite :
    (∀ (cfg cfg' : Config), tweak_baseos_treeinfo cfg = .ok cfg' →
        getSection cfg' "variant-AppStream" = none ∧
        getSection cfg' "media" = none ∧
        getOptO cfg' "general" "variants" = some "BaseOS" ∧
        getOptO cfg' "general" "variant" = some "BaseOS" ∧
        getOptO cfg' "tree" "variants" = some "BaseOS" ∧
        getOptO cfg' "general" "repository" = some "." ∧
        getOptO cfg' "variant-BaseOS" "repository" = some "." ∧
        getOptO cfg' "general" "packagedir" = some "Packages" ∧
        getOptO cfg' "variant-BaseOS" "packages" = some "Packages") ∧
    (∀ (store : Store) (path : String) (cfg' : Config),
        tweak_baseos_treeinfo (readConfig store path) = .ok cfg' →
        tweakBaseosFile store path = .ok (writeConfig store path cfg')) ∧
    (∀ (store : Store) (path : String) (cfg : Config),
        assoc (writeConfig store path cfg) path = some cfg) ∧
    (∀ (store : Store) (path q : String) (cfg : Config), q ≠ path →
        assoc (writeConfig store path cfg) q = assoc store q) := by
  refine ⟨?_, ?_, ?_, ?_⟩
  · intro cfg cfg' h
    by_cases hg : hasSection cfg "general"
    · by_cases ht : hasSection cfg "tree"
      · by_cases hv : hasSection cfg "variant-BaseOS"
        · simp [tweak_baseos_treeinfo, tweakPaths, setOpt, hg, ht, hv, pure,
            Except.pure] at h
          subst h
          obtain ⟨gopts, hgo⟩ :=
            Option.isSome_iff_exists.mp (by simpa [hasSection] using hg)
          obtain ⟨topts, hto⟩ :=
            Option.isSome_iff_exists.mp (by simpa [hasSection] using ht)
          obtain ⟨vopts, hvo⟩ :=
            Option.isSome_iff_exists.mp (by simpa [hasSection] using hv)
          refine ⟨?_, ?_, ?_, ?_, ?_, ?_, ?_, ?_, ?_⟩ <;>
            simp [getOptO, hgo, hto, hvo]
        · simp [tweak_baseos_treeinfo, tweakPaths, setOpt, hg, ht, hv] at h
      · simp [tweak_baseos_treeinfo, tweakPaths, setOpt, hg, ht] at h
    · simp [tweak_baseos_treeinfo, tweakPaths, setOpt, hg] at h
  · intro store path cfg' h
    simp [tweakBaseosFile, h, Except.map]
  · intro store path cfg
    simp [assoc_writeConfig]
  · intro store path q cfg hq
    simp [assoc_writeConfig, hq]

/-- Claim C3: after the AppStream edit, the document has no
`variant-BaseOS`, `checksums`, `stage2` or `media` section and no section
whose name starts with `images-`; `general.platforms` and `tree.platforms`
equal the document's original `general.arch` value; and the common rewrites
(variant name `AppStream`, repository `.`, packagedir/packages `Packages`)
are applied as for BaseOS. -/
theorem treeinfo_appstream_rewrite :
    ∀ (cfg cfg' : Config) (a : String),
      getOptO cfg "general" "arch" = some a →
      tweak_appstream_treeinfo cfg = .ok cfg' →
      getSection cfg' "variant-BaseOS" = none ∧
      getSection cfg' "checksums" = none ∧
      getSection cfg' "stage2" = none ∧
      getSection cfg' "media" = none ∧
      (∀ s : String, strStartsWith s "images-" = true → getSection cfg' s = none) ∧
      getOptO cfg' "general" "platforms" = some a ∧
      getOptO cfg' "tree" "platforms" = some a ∧
      getOptO cfg' "general" "variants" = some "AppStream" ∧
      getOptO cfg' "general" "variant" = some "AppStream" ∧
      getOptO cfg' "tree" "variants" = some "AppStream" ∧
      getOptO cfg' "general" "repository" = some "." ∧
      getOptO cfg' "variant-AppStream" "repository" = some "." ∧
      getOptO cfg' "general" "packagedir" = some "Packages" ∧
      getOptO cfg' "variant-AppStream" "packages" = some "Packages" := by
  intro cfg cfg' a harch h
  by_cases hg : hasSection cfg "general"
  · by_cases ht : hasSection cfg "tree"
    · by_cases hv : hasSection cfg "variant-AppStream"
      · obtain ⟨gopts, hgo⟩ :=
          Option.isSome_iff_exists.mp (by simpa [hasSection] using hg)
        obtain ⟨topts, hto⟩ :=
          Option.isSome_iff_exists.mp (by simpa [hasSection] using ht)
        obtain ⟨vopts, hvo⟩ :=
          Option.isSome_iff_exists.mp (by simpa [hasSection] using hv)
        have hka : getKey gopts "arch" = some a := by
          simpa [getOptO, hgo] using harch
        simp [tweak_appstream_treeinfo, tweakPaths, setOpt, getOpt, hg, ht, hv,
          hgo, hka, pure, Except.pure] at h
        subst h
        have pgen : ∀ ti : Config,
            getSection ((appstreamRemoveList ti).foldl removeSection ti) "general" =
              getSection ti "general" :=
          fun ti => getSection_appstreamRemove_preserve ti _ (by simp) (by decide)
        have ptree : ∀ ti : Config,
            getSection ((appstreamRemoveList ti).foldl removeSection ti) "tree" =
              getSection ti "tree" :=
          fun ti => getSection_appstreamRemove_preserve ti _ (by simp) (by decide)
        have pvar : ∀ ti : Config,
            getSection ((appstreamRemoveList ti).foldl removeSection ti)
                "variant-AppStream" = getSection ti "variant-AppStream" :=
          fun ti => getSection_appstreamRemove_preserve ti _ (by simp) (by decide)
        have pmedia : ∀ ti : Config,
            getSection ((appstreamRemoveList ti).foldl removeSection ti) "media" =
              getSection ti "media" :=
          fun ti => getSection_appstreamRemove_preserve ti _ (by simp) (by decide)
        refine ⟨getSection_appstreamRemove_mem _ _
            (List.mem_append_left _ (by simp)),
          getSection_appstreamRemove_mem _ _ (List.mem_append_left _ (by simp)),
          getSection_appstreamRemove_mem _ _ (List.mem_append_left _ (by simp)),
          ?_, fun s hs => getSection_appstreamRemove_images _ s hs,
          ?_, ?_, ?_, ?_, ?_, ?_, ?_, ?_, ?_⟩ <;>
          simp [getOptO, pgen, ptree, pvar, pmedia, hgo, hto, hvo]
      · simp [tweak_appstream_treeinfo, tweakPaths, setOpt, hg, ht, hv] at h
    · simp [tweak_appstream_treeinfo, tweakPaths, setOpt, hg, ht] at h
  · simp [tweak_appstream_treeinfo, tweakPaths, setOpt, hg] at h

/-- Claim C9: removing a missing section is a no-op, so the editors never
fail because a section slated for deletion is absent; the only lookup
failures the BaseOS editor can raise are a missing `general`, `tree` or
`variant-BaseOS` section, and the only lookup failures the AppStream editor
can raise are a missing `general`, `tree` or `variant-AppStream` section or
a missing `general.arch` option. -/
theorem treeinfo_editor_failure_modes :
    (∀ (cfg : Config) (s : String), hasSection cfg s = false →
        removeSection cfg s = cfg) ∧
    (∀ (cfg : Config) (e : CfgErr), tweak_baseos_treeinfo cfg = .error e →
        e = .noSection "general" ∨ e = .noSection "tree" ∨
        e = .noSection "variant-BaseOS") ∧
    (∀ (cfg : Config) (e : CfgErr), tweak_appstream_treeinfo cfg = .error e →
        e = .noSection "general" ∨ e = .noSection "tree" ∨
        e = .noSection "variant-AppStream" ∨ e = .noOption "general" "arch") := by
  refine ⟨removeSection_of_no_section, ?_, ?_⟩
  · intro cfg e h
    by_cases hg : hasSection cfg "general"
    · by_cases ht : hasSection cfg "tree"
      · by_cases hv : hasSection cfg "variant-BaseOS"
        · simp [tweak_baseos_treeinfo, tweakPaths, setOpt, hg, ht, hv, pure,
            Except.pure] at h
        · simp [tweak_baseos_treeinfo, tweakPaths, setOpt, hg, ht, hv] at h
          subst h
          simp
      · simp [tweak_baseos_treeinfo, tweakPaths, setOpt, hg, ht] at h
        subst h
        simp
    · simp [tweak_baseos_treeinfo, tweakPaths, setOpt, hg] at h
      subst h
      simp
  · intro cfg e h
    by_cases hg : hasSection cfg "general"
    · by_cases ht : hasSection cfg "tree"
      · by_cases hv : hasSection cfg "variant-AppStream"
        · obtain ⟨gopts, hgo⟩ :=
            Option.isSome_iff_exists.mp (by simpa [hasSection] using hg)
          cases hka : getKey gopts "arch" with
          | none =>
            simp [tweak_appstream_treeinfo, tweakPaths, setOpt, getOpt, hg, ht,
              hv, hgo, hka] at h
            subst h
            simp
          | some a =>
            simp [tweak_appstream_treeinfo, tweakPaths, setOpt, getOpt, hg, ht,
              hv, hgo, hka, pure, Except.pure] at h
        · simp [tweak_appstream_treeinfo, tweakPaths, setOpt, hg, ht, hv] at h
          subst h
          simp
      · simp [tweak_appstream_treeinfo, tweakPaths, setOpt, hg, ht] at h
        subst h
        simp
    · simp [tweak_appstream_treeinfo, tweakPaths, setOpt, hg] at h
      subst h
      simp

/-- A representative tree-info document used to witness the editor
theorems. -/
def cfgEx : Config :=
  [("general", [("arch", "x86_64"), ("platforms", "x86_64,xen"),
      ("variants", "AppStream,BaseOS")]),
   ("tree", [("arch", "x86_64"), ("platforms", "x86_64,xen"),
      ("variants", "AppStream,BaseOS")]),
   ("checksums", [("images/boot.iso", "sha256:aa")]),
   ("images-x86_64", [("boot.iso", "images/boot.iso")]),
   ("stage2", [("mainimage", "images/install.img")]),
   ("media", [("discnum", "1")]),
   ("variant-AppStream", [("id", "AppStream"), ("repository", "AppStream"),
      ("packages", "AppStream/Packages")]),
   ("variant-BaseOS", [("id", "BaseOS"), ("repository", "BaseOS"),
      ("packages", "BaseOS/Packages")])]

/-- The result of the BaseOS edit on `cfgEx`. -/
def cfgExB : Config :=
  [("general", [("arch", "x86_64"), ("platforms", "x86_64,xen"),
      ("variants", "BaseOS"), ("variant", "BaseOS"), ("repository", "."),
      ("packagedir", "Packages")]),
   ("tree", [("arch", "x86_64"), ("platforms", "x86_64,xen"),
      ("variants", "BaseOS")]),
   ("checksums", [("images/boot.iso", "sha256:aa")]),
   ("images-x86_64", [("boot.iso", "images/boot.iso")]),
   ("stage2", [("mainimage", "images/install.img")]),
   ("variant-BaseOS", [("id", "BaseOS"), ("repository", "."),
      ("packages", "Packages")])]

/-- The result of the AppStream edit on `cfgEx`. -/
def cfgExA : Config :=
  [("general", [("arch", "x86_64"), ("platforms", "x86_64"),
      ("variants", "AppStream"), ("variant", "AppStream"), ("repository", "."),
      ("packagedir", "Packages")]),
   ("tree", [("arch", "x86_64"), ("platforms", "x86_64"),
      ("variants", "AppStream")]),
   ("variant-AppStream", [("id", "AppStream"), ("repository", "."),
      ("packages", "Packages")])]

/-- A document with all required sections but no `general.arch` option. -/
def cfgNoArch : Config :=
  [("general", [("name", "x")]), ("tree", []), ("variant-AppStream", []),
   ("variant-BaseOS", [])]

/-- Witness for `treeinfo_baseos_rewrite` on `cfgEx` and a one-file store. -/
theorem treeinfo_baseos_rewrite_witness :
    (getSection cfgExB "variant-AppStream" = none ∧
      getSection cfgExB "media" = none ∧
      getOptO cfgExB "general" "variants" = some "BaseOS" ∧
      getOptO cfgExB "general" "variant" = some "BaseOS" ∧
      getOptO cfgExB "tree" "variants" = some "BaseOS" ∧
      getOptO cfgExB "general" "repository" = some "." ∧
      getOptO cfgExB "variant-BaseOS" "repository" = some "." ∧
      getOptO cfgExB "general" "packagedir" = some "Packages" ∧
      getOptO cfgExB "variant-BaseOS" "packages" = some "Packages") ∧
    tweakBaseosFile [("treeinfo", cfgEx)] "treeinfo" =
      .ok (writeConfig [("treeinfo", cfgEx)] "treeinfo" cfgExB) ∧
    assoc (writeConfig [("treeinfo", cfgEx)] "treeinfo" cfgExB) "treeinfo" =
      some cfgExB ∧
    assoc (writeConfig [("treeinfo", cfgEx)] "treeinfo" cfgExB) "other" =
      assoc [("treeinfo", cfgEx)] "other" :=
  ⟨treeinfo_baseos_rewrite.1 cfgEx cfgExB rfl,
   treeinfo_baseos_rewrite.2.1 [("treeinfo", cfgEx)] "treeinfo" cfgExB rfl,
   treeinfo_baseos_rewrite.2.2.1 [("treeinfo", cfgEx)] "treeinfo" cfgExB,
   treeinfo_baseos_rewrite.2.2.2 [("treeinfo", cfgEx)] "treeinfo" "other" cfgExB
     (by decide)⟩

/-- Witness for `treeinfo_appstream_rewrite` on `cfgEx`. -/
theorem treeinfo_appstream_rewrite_witness :
    getSection cfgExA "variant-BaseOS" = none ∧
    getSection cfgExA "checksums" = none ∧
    getSection cfgExA "stage2" = none ∧
    getSection cfgExA "media" = none ∧
    getSection cfgExA "images-x86_64" = none ∧
    getOptO cfgExA "general" "platforms" = some "x86_64" ∧
    getOptO cfgExA "tree" "platforms" = some "x86_64" ∧
    getOptO cfgExA "general" "variants" = some "AppStream" ∧
    getOptO cfgExA "variant-AppStream" "packages" = some "Packages" := by
  obtain ⟨h1, h2, h3, h4, h5, h6, h7, h8, h9, h10, h11, h12, h13, h14⟩ :=
    treeinfo_appstream_rewrite cfgEx cfgExA "x86_64" rfl rfl
  exact ⟨h1, h2, h3, h4, h5 "images-x86_64" rfl, h6, h7, h8, h14⟩

/-- Witness for `treeinfo_editor_failure_modes` at concrete documents. -/
theorem treeinfo_editor_failure_modes_witness :
    removeSection [("general", [])] "media" = [("general", [])] ∧
    (CfgErr.noSection "general" = CfgErr.noSection "general" ∨
      CfgErr.noSection "general" = CfgErr.noSection "tree" ∨
      CfgErr.noSection "general" = CfgErr.noSection "variant-BaseOS") ∧
    (CfgErr.noOption "general" "arch" = CfgErr.noSection "general" ∨
      CfgErr.noOption "general" "arch" = CfgErr.noSection "tree" ∨
      CfgErr.noOption "general" "arch" = CfgErr.noSection "variant-AppStream" ∨
      CfgErr.noOption "general" "arch" = CfgErr.noOption "general" "arch") :=
  ⟨treeinfo_editor_failure_modes.1 [("general", [])] "media" rfl,
   treeinfo_editor_failure_modes.2.1 [] (.noSection "general") rfl,
   treeinfo_editor_failure_modes.2.2 cfgNoArch (.noOption "general" "arch") rfl⟩

/-- A JSON value, as produced by `json.load`. -/
inductive Json where
  | str (s : String)
  | num (n : Int)
  | arr (elems : List Json)
  | obj (fields : List (String × Json))

/-- Content of a regular file on the image: opaque text, or a JSON document
(the parse `json.load` would produce for it). -/
inductive FileData where
  | raw (s : String)
  | jsonData (j : Json)

/-- A filesystem entry: a regular file or a directory listing (names paired
with entries, in `os.listdir` order). -/
inductive Entry where
  | file (d : FileData)
  | dir (es : List (String × Entry))

/-- Path lookup in a tree. -/
def lookupPath : Entry → List String → Option Entry
  | e, [] => some e
  | .file _, _ :: _ => none
  | .dir es, n :: rest =>
    match assoc es n with
    | some e => lookupPath e rest
    | none => none

mutual
/-- Embedding of `copytree` (src lines 105-108): `shutil.copytree` with an
ignore callback that names `TRANS.TBL` at every directory level, so every
entry called `TRANS.TBL` is skipped, recursively. -/
def copytreeE : Entry → Entry
  | .file d => .file d
  | .dir es => .dir (copytreeEs es)

/-- One directory level of `copytree`: drop entries named `TRANS.TBL`, copy
the rest recursively. -/
def copytreeEs : List (String × Entry) → List (String × Entry)
  | [] => []
  | (n, e) :: rest =>
    if n = "TRANS.TBL" then copytreeEs rest
    else (n, copytreeE e) :: copytreeEs rest
end

theorem assoc_copytreeEs (es : List (String × Entry)) (n : String) :
    assoc (copytreeEs es) n =
      if n = "TRANS.TBL" then none else (assoc es n).map copytreeE := by
  induction es with
  | nil =>
    by_cases h : n = "TRANS.TBL" <;> simp [copytreeEs, assoc, h]
  | cons p rest ih =>
    obtain ⟨m, e⟩ := p
    by_cases hm : m = "TRANS.TBL"
    · subst hm
      by_cases hn : n = "TRANS.TBL"
      · subst hn
        simp [copytreeEs, ih]
      · simp [copytreeEs, assoc, hn, Ne.symm hn, ih]
    · by_cases hmn : m = n
      · subst hmn
        simp [copytreeEs, assoc, hm]
      · by_cases hn : n = "TRANS.TBL"
        · subst hn
          simp [copytreeEs, assoc, hm, hmn, ih]
        · simp [copytreeEs, assoc, hm, hmn, hn, ih]

/-- Claim C5 (amended): the directory copier excludes every entry named
`TRANS.TBL` — and hence everything below such an entry — at every level,
and copies every entry whose path contains no `TRANS.TBL` component (the
copy of a directory being its `TRANS.TBL`-filtered image and the copy of a
file being the file itself). -/
theorem copytree_transtbl :
    (∀ (t : Entry) (p : List String), "TRANS.TBL" ∉ p →
        lookupPath (copytreeE t) p = (lookupPath t p).map copytreeE) ∧
    (∀ (t : Entry) (p : List String), "TRANS.TBL" ∈ p →
        lookupPath (copytreeE t) p = none) := by
  constructor
  · intro t p
    induction p generalizing t with
    | nil => intro _; simp [lookupPath]
    | cons n rest ih =>
      intro hp
      rw [List.mem_cons, not_or] at hp
      obtain ⟨hp1, hp2⟩ := hp
      cases t with
      | file d => simp [copytreeE, lookupPath]
      | dir es =>
        simp only [copytreeE, lookupPath]
        rw [assoc_copytreeEs, if_neg (Ne.symm hp1)]
        cases he : assoc es n with
        | none => simp
        | some e => simp [ih e hp2]
  · intro t p
    induction p generalizing t with
    | nil => intro h; simp at h
    | cons n rest ih =>
      intro hp
      cases t with
      | file d => simp [copytreeE, lookupPath]
      | dir es =>
        by_cases hn : n = "TRANS.TBL"
        · simp [copytreeE, lookupPath, assoc_copytreeEs, hn]
        · have hr : "TRANS.TBL" ∈ rest := by
            rcases List.mem_cons.mp hp with h | h
            · exact absurd h.symm hn
            · exact h
          simp only [copytreeE, lookupPath]
          rw [assoc_copytreeEs, if_neg hn]
          cases he : assoc es n with
          | none => simp
          | some e => simp [ih e hr]

/-- A source tree containing a directory named `TRANS.TBL` with a file
below it. -/
def srcEx : Entry :=
  .dir [("TRANS.TBL", .dir [("x", .file (.raw "a"))]), ("y", .file (.raw "b"))]

/-- Claim C5 (as stated) is false: `x` is a file not named `TRANS.TBL`,
present in the source subtree, yet absent from the copied tree, because its
parent directory is named `TRANS.TBL` and the copier excludes directories by
that name too, together with their contents. -/
theorem copytree_claim_counterexample :
    lookupPath srcEx ["TRANS.TBL", "x"] = some (.file (.raw "a")) ∧
    "x" ≠ "TRANS.TBL" ∧
    lookupPath (copytreeE srcEx) ["TRANS.TBL", "x"] = none :=
  ⟨rfl, by decide, rfl⟩

/-- Witness for `copytree_transtbl` at a concrete tree and paths. -/
theorem copytree_transtbl_witness :
    lookupPath (copytreeE srcEx) ["y"] =
      (lookupPath srcEx ["y"]).map copytreeE ∧
    lookupPath (copytreeE srcEx) ["TRANS.TBL", "x"] = none :=
  ⟨copytree_transtbl.1 srcEx ["y"] (by decide),
   copytree_transtbl.2 srcEx ["TRANS.TBL", "x"] (by decide)⟩

/-- The fixed skip list of `copy_boot_files` (src line 113). -/
def IGNORE : List String :=
  ["AppStream", "BaseOS", ".treeinfo", ".discinfo", "media.repo"]

/-- JSON object field access (`value[key]`), `none` on a non-object or a
missing key. -/
def jsonGet : Json → String → Option Json
  | .obj fields, k => assoc fields k
  | _, _ => none

/-- `[item["file"] for item in extra_files_data["data"]]` (src line 147):
fails when `data` is missing or not an array, or an item has no string
`file` value usable as a path. -/
def extraFileNames (j : Json) : Option (List String) :=
  match jsonGet j "data" with
  | some (.arr items) =>
    items.mapM (fun it =>
      match jsonGet it "file" with
      | some (.str s) => some s
      | _ => none)
  | _ => none

/-- Reading the manifest (src lines 145-148): open `extra_files.json` at the
mount root, parse it as JSON, extract the file names, and prepend the
manifest's own filename. -/
def extraFilesFrom (mount : List (String × Entry)) : Option (List String) :=
  match assoc mount "extra_files.json" with
  | some (.file (.jsonData j)) =>
    (extraFileNames j).map (fun files => "extra_files.json" :: files)
  | _ => none

/-- Place a file or directory in a destination listing, replacing an entry
of the same name in place. -/
def insertEntry : List (String × Entry) → String → Entry → List (String × Entry)
  | [], n, e => [(n, e)]
  | (m, x) :: rest, n, e =>
    if m = n then (n, e) :: rest else (m, x) :: insertEntry rest n e

/-- Whether a destination listing already has an entry of this name. -/
def hasEntry (es : List (String × Entry)) (n : String) : Bool :=
  (assoc es n).isSome

/-- `shutil.copy(join(mount_dir, srcName), <dest>/destName)`: fails when the
source is missing or is a directory. -/
def copyFileAs (mount : List (String × Entry)) (srcName destName : String)
    (dst : List (String × Entry)) : Option (List (String × Entry)) :=
  match assoc mount srcName with
  | some (.file c) => some (insertEntry dst destName (.file c))
  | _ => none

/-- The `for fname in extra_files` copy loop (src lines 158-159). -/
def copyExtras (mount : List (String × Entry)) :
    List String → List (String × Entry) → Option (List (String × Entry))
  | [], dst => some dst
  | f :: fs, dst =>
    match copyFileAs mount f f dst with
    | some dst2 => copyExtras mount fs dst2
    | none => none

/-- The `for fname in os.listdir(srcdir)` loop of `copy_boot_files`
(src lines 116-123) over the remaining mount-root entries: skipped names are
those in `IGNORE ++ ignore`; a directory is copied with `copytree` (which
fails when the destination already has that name); a file is copied with
`shutil.copy` (which overwrites). -/
def copyBootFilesLoop (ignore : List String) :
    List (String × Entry) → List (String × Entry) →
      Option (List (String × Entry))
  | [], dst => some dst
  | (n, e) :: rest, dst =>
    if n ∈ IGNORE ++ ignore then copyBootFilesLoop ignore rest dst
    else
      match e with
      | .dir es =>
        if hasEntry dst n then none
        else copyBootFilesLoop ignore rest (insertEntry dst n (copytreeE (.dir es)))
      | .file c => copyBootFilesLoop ignore rest (insertEntry dst n (.file c))

/-- Embedding of `copy_boot_files` (src lines 111-123). -/
def copy_boot_files (mount : List (String × Entry))
    (dst : List (String × Entry)) (ignore : List String) :
    Option (List (String × Entry)) :=
  copyBootFilesLoop ignore mount dst

/-- One iteration of the variant loop (src lines 151-159): copy the variant
subtree with `copytree`, copy the hidden `.discinfo` and `.treeinfo` to the
unhidden names `discinfo` and `treeinfo`, then copy every extra file. -/
def variantKickstart (mount : List (String × Entry)) (variant : String)
    (extraFiles : List String) : Option (List (String × Entry)) :=
  match assoc mount variant with
  | some (.dir es) =>
    match copyFileAs mount ".discinfo" "discinfo" (copytreeEs es) with
    | some d1 =>
      match copyFileAs mount ".treeinfo" "treeinfo" d1 with
      | some d2 => copyExtras mount extraFiles d2
      | none => none
    | none => none
  | _ => none

/-- The copy phase of `main` inside the mount scope (src lines 143-165):
read the extra-files manifest, build each variant's
`<dest>/<variant-lowercased>/kickstart` tree (AppStream first, then BaseOS),
and sweep the remaining boot files into `<dest>/baseos/kickstart`.  Returns
the destination tree, or `none` when any step raises. -/
def mainCopyPhase (mount : List (String × Entry)) : Option Entry :=
  match extraFilesFrom mount with
  | none => none
  | some extraFiles =>
    match variantKickstart mount "AppStream" extraFiles with
    | none => none
    | some app =>
      match variantKickstart mount "BaseOS" extraFiles with
      | none => none
      | some base =>
        match copy_boot_files mount base extraFiles with
        | none => none
        | some base2 =>
          some (.dir [("appstream", .dir [("kickstart", .dir app)]),
                      ("baseos", .dir [("kickstart", .dir base2)])])

/-- The synthetic mount root of the claim: `AppStream/`, `BaseOS/`,
`.treeinfo`, `.discinfo`, a manifest whose `data` array lists the single
file `README`, the `README` file itself, and a boot directory
`isolinux/isolinux.cfg`. -/
def syntheticRoot : List (String × Entry) :=
  [("AppStream", .dir [("Packages", .dir []),
      ("repodata", .dir [("repomd.xml", .file (.raw "appstream-repomd"))])]),
   ("BaseOS", .dir [("Packages", .dir []),
      ("repodata", .dir [("repomd.xml", .file (.raw "baseos-repomd"))])]),
   (".treeinfo", .file (.raw "treeinfo-content")),
   (".discinfo", .file (.raw "discinfo-content")),
   ("extra_files.json", .file (.jsonData
      (.obj [("data", .arr [.obj [("file", .str "README")]])]))),
   ("README", .file (.raw "readme-content")),
   ("isolinux", .dir [("isolinux.cfg", .file (.raw "isolinux-config"))])]

/-- Lookup in the destination tree produced by the copy phase on the
synthetic root. -/
def lookAt (p : List String) : Option Entry :=
  (mainCopyPhase syntheticRoot).bind (fun d => lookupPath d p)

/-- Claim C1: on the synthetic mount root, the run builds
`<dest>/baseos/kickstart` containing `treeinfo`, `discinfo`, `README`,
`extra_files.json` and `isolinux/isolinux.cfg`, and
`<dest>/appstream/kickstart` containing `treeinfo`, `discinfo`, `README`
and `extra_files.json` but no `isolinux` entry; the hidden `.discinfo` and
`.treeinfo` appear under the unhidden names (with the hidden files'
contents), and the extra-files list is the manifest's own filename prepended
to the `file` values of its `data` array. -/
theorem synthetic_run_layout :
    extraFilesFrom syntheticRoot = some ["extra_files.json", "README"] ∧
    lookAt ["baseos", "kickstart", "treeinfo"] =
      some (.file (.raw "treeinfo-content")) ∧
    lookAt ["baseos", "kickstart", "discinfo"] =
      some (.file (.raw "discinfo-content")) ∧
    lookAt ["baseos", "kickstart", "README"] =
      some (.file (.raw "readme-content")) ∧
    lookAt ["baseos", "kickstart", "extra_files.json"] =
      some (.file (.jsonData
        (.obj [("data", .arr [.obj [("file", .str "README")]])]))) ∧
    lookAt ["baseos", "kickstart", "isolinux", "isolinux.cfg"] =
      some (.file (.raw "isolinux-config")) ∧
    lookAt ["appstream", "kickstart", "treeinfo"] =
      some (.file (.raw "treeinfo-content")) ∧
    lookAt ["appstream", "kickstart", "discinfo"] =
      some (.file (.raw "discinfo-content")) ∧
    lookAt ["appstream", "kickstart", "README"] =
      some (.file (.raw "readme-content")) ∧
    lookAt ["appstream", "kickstart", "extra_files.json"] =
      some (.file (.jsonData
        (.obj [("data", .arr [.obj [("file", .str "README")]])]))) ∧
    lookAt ["appstream", "kickstart", "isolinux"] = none :=
  ⟨rfl, rfl, rfl, rfl, rfl, rfl, rfl, rfl, rfl, rfl, rfl⟩

end Kickstart
